import Mathlib

/-!
Verification of the FDS_SDK Entity-Component System and its collaborator
utilities (signal dispatcher, configuration store), shallowly embedded from
`src/FDS_std/FDS_EntityComSystem.h` and `src/unnamed/part_001`.

C++ pointers are abstracted as natural-number identities (allocation order);
machine `std::size_t` counters are modelled as `Nat` (the counters involved
never approach 2^64 within the capacities under study, and the source never
relies on wraparound).
-/

namespace FDS

/-! ## Type registry (`getComTypeID`, FDS_EntityComSystem.h lines 18-35)

The C++ registry is a pair of statics: a process-wide counter `lastID`
(inside the non-template `getComTypeID`) and one memoised `typeID` per
template instantiation.  We model the process state explicitly: `lastID`
plus an association list from type token (a `Nat` standing for the C++
type) to its memoised identifier. -/

/-- `constexpr std::size_t FDS_MAX_COM = 32;` -/
def FDS_MAX_COM : Nat := 32

/-- Process-wide registry state: the `static FDS_ComID lastID` counter and
the per-type memoised `static FDS_ComID typeID` values. -/
structure Reg where
  lastID : Nat
  assigned : List (Nat × Nat)
deriving Repr, DecidableEq

/-- Process start: no type seen yet, counter at zero. -/
def Reg.init : Reg := ⟨0, []⟩

/-- Lookup in a `Nat`-keyed association list (first match wins). -/
def findA {α : Type} : List (Nat × α) → Nat → Option α
  | [], _ => none
  | (k, v) :: rest, t => if k = t then some v else findA rest t

/-- The memoised identifier of type token `t`, if its `getComTypeID<T>`
instantiation has already run once. -/
def Reg.find (r : Reg) (t : Nat) : Option Nat :=
  findA r.assigned t

/-- `getComTypeID<T>()`: on first call for `T`, runs the non-template
`getComTypeID()` (returning `lastID` and post-incrementing it) and memoises
the result; on later calls returns the memoised value unchanged. -/
def getComTypeID (t : Nat) (r : Reg) : Nat × Reg :=
  match r.find t with
  | some id => (id, r)
  | none => (r.lastID, ⟨r.lastID + 1, (t, r.lastID) :: r.assigned⟩)

/-- Run a sequence of `getComTypeID` calls, returning the final state. -/
def registerAll (ts : List Nat) (r : Reg) : Reg :=
  ts.foldl (fun s t => (getComTypeID t s).2) r

/-- Well-formedness of a registry state reachable from process start:
every memoised identifier is below the counter, and no two type tokens
share an identifier. -/
def Reg.WF (r : Reg) : Prop :=
  (∀ t id, r.find t = some id → id < r.lastID) ∧
  (∀ t₁ t₂ id, r.find t₁ = some id → r.find t₂ = some id → t₁ = t₂)

theorem Reg.WF_init : Reg.WF Reg.init := by
  constructor
  · intro t id h; simp [Reg.find, Reg.init, findA] at h
  · intro t₁ t₂ id h _; simp [Reg.find, Reg.init, findA] at h

theorem getComTypeID_find_some {r : Reg} {t id : Nat}
    (h : r.find t = some id) : getComTypeID t r = (id, r) := by
  simp [getComTypeID, h]

theorem getComTypeID_find_none {r : Reg} {t : Nat}
    (h : r.find t = none) :
    getComTypeID t r = (r.lastID, ⟨r.lastID + 1, (t, r.lastID) :: r.assigned⟩) := by
  simp [getComTypeID, h]

/-- After a call for `t`, the state memoises exactly the returned value. -/
theorem getComTypeID_post_find (t : Nat) (r : Reg) :
    ((getComTypeID t r).2).find t = some (getComTypeID t r).1 := by
  unfold getComTypeID
  cases h : r.find t with
  | some id => simp [h]
  | none => simp [Reg.find, findA]

/-- A call for `t` does not change what is memoised for any other token. -/
theorem getComTypeID_find_other {t u : Nat} (r : Reg) (hne : u ≠ t) :
    ((getComTypeID t r).2).find u = r.find u := by
  cases h : r.find t with
  | some id => rw [getComTypeID_find_some h]
  | none =>
    rw [getComTypeID_find_none h]
    simp only [Reg.find, findA]
    rw [if_neg (fun h' => hne h'.symm)]

/-- The counter never decreases. -/
theorem getComTypeID_lastID_mono (t : Nat) (r : Reg) :
    r.lastID ≤ ((getComTypeID t r).2).lastID := by
  cases h : r.find t with
  | some id => rw [getComTypeID_find_some h]
  | none => rw [getComTypeID_find_none h]; simp

/-- A call preserves well-formedness. -/
theorem Reg.WF_step {r : Reg} (hwf : r.WF) (t : Nat) :
    ((getComTypeID t r).2).WF := by
  obtain ⟨hbound, hinj⟩ := hwf
  cases h : r.find t with
  | some id => rw [getComTypeID_find_some h]; exact ⟨hbound, hinj⟩
  | none =>
    rw [getComTypeID_find_none h]
    dsimp only
    constructor
    · intro u id hu
      simp only [Reg.find, findA] at hu
      by_cases hut : t = u
      · rw [if_pos hut] at hu
        simp only [Option.some.injEq] at hu
        show id < r.lastID + 1
        omega
      · rw [if_neg hut] at hu
        have := hbound u id hu
        show id < r.lastID + 1
        omega
    · intro t₁ t₂ id h₁ h₂
      simp only [Reg.find, findA] at h₁ h₂
      by_cases h₁t : t = t₁
      · rw [if_pos h₁t] at h₁
        simp only [Option.some.injEq] at h₁
        by_cases h₂t : t = t₂
        · omega
        · rw [if_neg h₂t] at h₂
          have := hbound t₂ id h₂
          omega
      · rw [if_neg h₁t] at h₁
        by_cases h₂t : t = t₂
        · rw [if_pos h₂t] at h₂
          simp only [Option.some.injEq] at h₂
          have := hbound t₁ id h₁
          omega
        · rw [if_neg h₂t] at h₂
          exact hinj t₁ t₂ id h₁ h₂

/-- The identifier returned for `t` is below the post-call counter. -/
theorem getComTypeID_ret_lt {r : Reg} (hwf : r.WF) (t : Nat) :
    (getComTypeID t r).1 < ((getComTypeID t r).2).lastID := by
  cases h : r.find t with
  | some id =>
    rw [getComTypeID_find_some h]
    exact hwf.1 t id h
  | none =>
    rw [getComTypeID_find_none h]
    simp

/-- C1: `getComTypeID<T>()` returns the same identifier on every call
(repeating a call returns the same value and leaves the state unchanged);
distinct types receive distinct identifiers; the counter starts at zero and
the first call for a previously-unseen type returns the current counter
value and advances it by one, so identifiers are handed out as 0, 1, 2, …
in first-use order. -/
theorem claim_C1_typeId_contract :
    Reg.init.lastID = 0 ∧
    (∀ r t, getComTypeID t ((getComTypeID t r).2) = getComTypeID t r) ∧
    (∀ r : Reg, r.WF → ∀ t, ((getComTypeID t r).2).WF) ∧
    (∀ r : Reg, r.WF → ∀ t₁ t₂, t₁ ≠ t₂ →
      (getComTypeID t₁ r).1 ≠ (getComTypeID t₂ ((getComTypeID t₁ r).2)).1) ∧
    (∀ r t, r.find t = none →
      (getComTypeID t r).1 = r.lastID ∧
      ((getComTypeID t r).2).lastID = r.lastID + 1) := by
  refine ⟨rfl, ?_, ?_, ?_, ?_⟩
  · intro r t
    rw [getComTypeID_find_some (getComTypeID_post_find t r)]
  · intro r hwf t
    exact Reg.WF_step hwf t
  · intro r hwf t₁ t₂ hne
    have hw1 : ((getComTypeID t₁ r).2).WF := Reg.WF_step hwf t₁
    have hp : ((getComTypeID t₁ r).2).find t₁ = some (getComTypeID t₁ r).1 :=
      getComTypeID_post_find t₁ r
    cases h2 : ((getComTypeID t₁ r).2).find t₂ with
    | some id₂ =>
      rw [getComTypeID_find_some h2]
      intro heq
      have heq' : (getComTypeID t₁ r).1 = id₂ := heq
      exact hne (hw1.2 t₁ t₂ id₂ (heq' ▸ hp) h2)
    | none =>
      rw [getComTypeID_find_none h2]
      dsimp only
      have := hw1.1 t₁ _ hp
      omega
  · intro r t h
    rw [getComTypeID_find_none h]
    exact ⟨rfl, rfl⟩

/-- Witness for C1 at a concrete input: from process start, type 7 then
type 9 receive identifiers 0 and 1, and a repeated call for 7 is stable. -/
theorem claim_C1_typeId_contract_witness :
    (getComTypeID 7 Reg.init).1 ≠ (getComTypeID 9 ((getComTypeID 7 Reg.init).2)).1 ∧
    getComTypeID 7 ((getComTypeID 7 Reg.init).2) = getComTypeID 7 Reg.init ∧
    (getComTypeID 7 Reg.init).1 = 0 ∧
    (getComTypeID 9 ((getComTypeID 7 Reg.init).2)).1 = 1 := by
  refine ⟨?_, ?_, by decide, by decide⟩
  · exact claim_C1_typeId_contract.2.2.2.1 Reg.init Reg.WF_init 7 9 (by decide)
  · exact claim_C1_typeId_contract.2.1 Reg.init 7

/-- C8: the fixed capacity is 32, yet registering a 33rd distinct type is
not detected: `getComTypeID` silently returns identifier 32, which is not
below `FDS_MAX_COM` and hence indexes the 32-slot bitset/array out of
bounds.  This is the evaluation of the code at the failing input; no error
path exists anywhere in the registration. -/
theorem claim_C8_no_capacity_check :
    FDS_MAX_COM = 32 ∧
    (getComTypeID 32 (registerAll (List.range 32) Reg.init)).1 = 32 ∧
    ¬ (getComTypeID 32 (registerAll (List.range 32) Reg.init)).1 < FDS_MAX_COM := by
  refine ⟨rfl, by decide, by decide⟩

/-! ## Components and entities (FDS_EntityComSystem.h lines 37-105)

Pointers are abstracted as identities: an entity is named by `eid`
(allocation order in its manager), a component by `cid` (its insertion
index in the owning entity's sequence, stable because the sequence is only
ever appended to while the entity lives).  The base-class lifecycle hooks
`init`/`update`/`draw` have empty bodies; to observe the dispatch order
the model has each hook leave a trace: `init` records the value of the
`owner` field at the moment it runs (field `initOwner`), and
`update`/`draw` return the list of visited components. -/

/-- `FDS_Component`: `owner` back-reference plus model instrumentation
(`tid` the C++ dynamic type, `cid` the identity, `initOwner` what `init()`
observed in the `owner` field when it ran, `none` = not yet run). -/
structure FDS_Component where
  owner : Option Nat := none
  tid : Nat
  cid : Nat
  initOwner : Option (Option Nat) := none
deriving Repr, DecidableEq

/-- `FDS_Entity` state: active flag, owned insertion-ordered component
sequence, lookup table (`m_comArray`, entry = index into `m_components`,
`none` = null pointer) and presence bitset, both zero-initialised. -/
structure FDS_Entity where
  eid : Nat
  m_isActive : Bool
  m_components : List FDS_Component
  m_comArray : Nat → Option Nat
  m_comBitSet : Nat → Bool

/-- A freshly constructed entity: active, no components, all table entries
null, all bits clear (lines 100-104). -/
def newEntity (eid : Nat) : FDS_Entity :=
  { eid := eid
    m_isActive := true
    m_components := []
    m_comArray := fun _ => none
    m_comBitSet := fun _ => false }

/-- `isActive()` (line 61). -/
def FDS_Entity.isActive (e : FDS_Entity) : Bool := e.m_isActive

/-- `destroy()` (line 66): clears the active flag, touches nothing else. -/
def FDS_Entity.destroy (e : FDS_Entity) : FDS_Entity :=
  { e with m_isActive := false }

/-- `hasComponent<T>()` (line 71): the bitset test. -/
def FDS_Entity.hasComponent (e : FDS_Entity) (tid : Nat) : Bool :=
  e.m_comBitSet tid

/-- `com->init()` at the end of `addComponent` runs on the just-appended
component (the last of the sequence); the base hook's only observable in
the model is the `owner` value it sees, recorded in `initOwner`. -/
def initLast : List FDS_Component → List FDS_Component
  | [] => []
  | [c] => [{ c with initOwner := some c.owner }]
  | c :: cs => c :: initLast cs

/-- `addComponent<T>(args...)` (lines 77-91), with `tid = getComTypeID<T>()`.
The source performs in order: construct (line 80), `com->owner = this`
(line 81), take unique ownership and append (lines 83-84), set the lookup
table entry (line 86), set the bitset bit (line 87), `com->init()` (line
89).  The appended record below carries the owner already set (line 81
precedes the append), and `initLast` applies the `init` effect last. -/
def FDS_Entity.addComponent (e : FDS_Entity) (tid : Nat) : FDS_Entity :=
  { eid := e.eid
    m_isActive := e.m_isActive
    m_components := initLast (e.m_components ++
      [{ owner := some e.eid, tid := tid, cid := e.m_components.length, initOwner := none }])
    m_comArray := fun t => if t = tid then some e.m_components.length else e.m_comArray t
    m_comBitSet := fun t => if t = tid then true else e.m_comBitSet t }

/-- `getComponent<T>()` (lines 93-98): raw lookup-table dereference.  A
null entry is dereferenced in C++ (undefined behavior); the model returns
`none` there. -/
def FDS_Entity.getComponent (e : FDS_Entity) (tid : Nat) : Option FDS_Component :=
  match e.m_comArray tid with
  | none => none
  | some i => e.m_components.get? i

/-- `FDS_Entity::update()` (lines 51-54): `for (auto& c : m_components)
c->update();` — the base hook mutates nothing, so the run is its trace:
the identities of the components visited, in visit order. -/
def FDS_Entity.update (e : FDS_Entity) : List Nat :=
  e.m_components.foldl (fun log c => log ++ [c.cid]) []

/-- `FDS_Entity::draw()` (lines 56-59), same shape as `update`. -/
def FDS_Entity.draw (e : FDS_Entity) : List Nat :=
  e.m_components.foldl (fun log c => log ++ [c.cid]) []

/-! ## Entity manager (FDS_EntityComSystem.h lines 107-142) -/

structure FDS_EntityManager where
  m_entities : List FDS_Entity
  nextEid : Nat

/-- A default-constructed manager. -/
def FDS_EntityManager.empty : FDS_EntityManager := ⟨[], 0⟩

/-- `addEntity()` (lines 133-139): construct, take ownership, append in
creation order, return the new entity. -/
def FDS_EntityManager.addEntity (m : FDS_EntityManager) : FDS_EntityManager × FDS_Entity :=
  let e := newEntity m.nextEid
  (⟨m.m_entities ++ [e], m.nextEid + 1⟩, e)

/-- `FDS_EntityManager::update()` (lines 110-113): `for (auto& e :
m_entities) e->update();` — trace of `(entity, component)` hook firings. -/
def FDS_EntityManager.update (m : FDS_EntityManager) : List (Nat × Nat) :=
  m.m_entities.foldl
    (fun log e => log ++ (FDS_Entity.update e).map (fun c => (e.eid, c))) []

/-- `FDS_EntityManager::draw()` (lines 115-118). -/
def FDS_EntityManager.draw (m : FDS_EntityManager) : List (Nat × Nat) :=
  m.m_entities.foldl
    (fun log e => log ++ (FDS_Entity.draw e).map (fun c => (e.eid, c))) []

/-- `refresh()` (lines 120-131): `erase(remove_if(..., !isActive), end)` —
the erase-remove idiom, i.e. a stable filter keeping the active entities. -/
def FDS_EntityManager.refresh (m : FDS_EntityManager) : FDS_EntityManager :=
  { m with m_entities := m.m_entities.filter (fun e => e.isActive) }

/-- Calling `destroy()` through the reference `addEntity` returned: the
reference aliases the stored entity, identified by its `eid`. -/
def FDS_EntityManager.destroyEntity (m : FDS_EntityManager) (eid : Nat) : FDS_EntityManager :=
  { m with m_entities := m.m_entities.map (fun e => if e.eid = eid then e.destroy else e) }

/-! ### Helper lemmas about the traces and `initLast` -/

theorem initLast_cons_cons (x y : FDS_Component) (ys : List FDS_Component) :
    initLast (x :: y :: ys) = x :: initLast (y :: ys) := rfl

theorem initLast_append (c : FDS_Component) :
    ∀ l : List FDS_Component,
      initLast (l ++ [c]) = l ++ [{ c with initOwner := some c.owner }] := by
  intro l
  induction l with
  | nil => rfl
  | cons x xs ih =>
    cases xs with
    | nil => rfl
    | cons y ys =>
      calc initLast ((x :: y :: ys) ++ [c])
          = x :: initLast ((y :: ys) ++ [c]) := rfl
        _ = x :: ((y :: ys) ++ [{ c with initOwner := some c.owner }]) := by rw [ih]
        _ = (x :: y :: ys) ++ [{ c with initOwner := some c.owner }] := rfl

theorem foldl_snoc_eq_map {α β : Type} (f : α → β) :
    ∀ (l : List α) (init : List β),
      l.foldl (fun acc x => acc ++ [f x]) init = init ++ l.map f := by
  intro l
  induction l with
  | nil => intro init; simp
  | cons x xs ih =>
    intro init
    simp [List.foldl_cons, ih]

theorem foldl_append_eq_bind {α β : Type} (g : α → List β) :
    ∀ (l : List α) (init : List β),
      l.foldl (fun acc x => acc ++ g x) init = init ++ l.flatMap g := by
  intro l
  induction l with
  | nil => intro init; simp
  | cons x xs ih =>
    intro init
    simp [List.foldl_cons, ih]

theorem FDS_Entity.update_eq_map (e : FDS_Entity) :
    FDS_Entity.update e = e.m_components.map (fun c => c.cid) := by
  simpa using foldl_snoc_eq_map (fun c : FDS_Component => c.cid) e.m_components []

theorem FDS_Entity.draw_eq_map (e : FDS_Entity) :
    FDS_Entity.draw e = e.m_components.map (fun c => c.cid) := by
  simpa using foldl_snoc_eq_map (fun c : FDS_Component => c.cid) e.m_components []

theorem FDS_EntityManager.update_eq_bind (m : FDS_EntityManager) :
    FDS_EntityManager.update m =
      m.m_entities.flatMap (fun e => (FDS_Entity.update e).map (fun c => (e.eid, c))) := by
  simpa using foldl_append_eq_bind
    (fun e : FDS_Entity => (FDS_Entity.update e).map (fun c => (e.eid, c))) m.m_entities []

theorem FDS_EntityManager.draw_eq_bind (m : FDS_EntityManager) :
    FDS_EntityManager.draw m =
      m.m_entities.flatMap (fun e => (FDS_Entity.draw e).map (fun c => (e.eid, c))) := by
  simpa using foldl_append_eq_bind
    (fun e : FDS_Entity => (FDS_Entity.draw e).map (fun c => (e.eid, c))) m.m_entities []

/-- The component appended by `addComponent`, after `init` has run. -/
def addedCom (e : FDS_Entity) (tid : Nat) : FDS_Component :=
  { owner := some e.eid
    tid := tid
    cid := e.m_components.length
    initOwner := some (some e.eid) }

theorem addComponent_components (e : FDS_Entity) (tid : Nat) :
    (e.addComponent tid).m_components = e.m_components ++ [addedCom e tid] := by
  show initLast (e.m_components ++ [_]) = _
  rw [initLast_append]
  rfl

theorem addComponent_length (e : FDS_Entity) (tid : Nat) :
    (e.addComponent tid).m_components.length = e.m_components.length + 1 := by
  rw [addComponent_components]; simp

theorem addComponent_comArray (e : FDS_Entity) (tid t : Nat) :
    (e.addComponent tid).m_comArray t =
      if t = tid then some e.m_components.length else e.m_comArray t := rfl

theorem addComponent_comBitSet (e : FDS_Entity) (tid t : Nat) :
    (e.addComponent tid).m_comBitSet t =
      if t = tid then true else e.m_comBitSet t := rfl

theorem get?_append_length {α : Type} :
    ∀ (l₁ : List α) (a : α) (l₂ : List α),
      (l₁ ++ a :: l₂).get? l₁.length = some a := by
  intro l₁
  induction l₁ with
  | nil => intro a l₂; rfl
  | cons x xs ih => intro a l₂; simpa using ih a l₂

theorem get?_append_lt {α : Type} :
    ∀ (l₁ l₂ : List α) (n : Nat), n < l₁.length →
      (l₁ ++ l₂).get? n = l₁.get? n := by
  intro l₁
  induction l₁ with
  | nil => intro l₂ n h; simp at h
  | cons x xs ih =>
    intro l₂ n h
    cases n with
    | zero => rfl
    | succ k => simpa using ih l₂ k (by simpa using h)

/-- C2: `addComponent<T>` constructs the component, sets its owner
back-reference to the entity, appends it to the owned sequence, records it
in the lookup table and bitset, and only then fires `init()` — witnessed by
the component's `init` having observed the owner already set; afterwards
`hasComponent<T>()` holds and `getComponent<T>()` returns exactly the new
component, whose owner is the entity. -/
theorem claim_C2_addComponent_effects :
    ∀ (e : FDS_Entity) (tid : Nat), tid < FDS_MAX_COM →
      ∃ c : FDS_Component,
        (e.addComponent tid).m_components = e.m_components ++ [c] ∧
        c.owner = some e.eid ∧
        c.initOwner = some (some e.eid) ∧
        (e.addComponent tid).hasComponent tid = true ∧
        (e.addComponent tid).getComponent tid = some c := by
  intro e tid _
  refine ⟨addedCom e tid, addComponent_components e tid, rfl, rfl, ?_, ?_⟩
  · show (if tid = tid then true else e.m_comBitSet tid) = true
    simp
  · unfold FDS_Entity.getComponent
    rw [addComponent_comArray, if_pos rfl, addComponent_components]
    exact get?_append_length e.m_components (addedCom e tid) []

/-- Witness for C2: a concrete entity and a concrete in-capacity type. -/
theorem claim_C2_addComponent_effects_witness :
    3 < FDS_MAX_COM ∧
    ∃ c : FDS_Component,
      ((newEntity 5).addComponent 3).m_components = (newEntity 5).m_components ++ [c] ∧
      c.owner = some (newEntity 5).eid ∧
      c.initOwner = some (some (newEntity 5).eid) ∧
      ((newEntity 5).addComponent 3).hasComponent 3 = true ∧
      ((newEntity 5).addComponent 3).getComponent 3 = some c :=
  ⟨by decide, claim_C2_addComponent_effects (newEntity 5) 3 (by decide)⟩

/-- C3: a second `addComponent` for an already-present type makes
`getComponent` return the newer instance (the lookup slot and bit are
overwritten), while the earlier instance stays alive at its old position
in the owned sequence and keeps being visited by `update()` and `draw()`;
no error path exists. -/
theorem claim_C3_duplicate_addComponent :
    ∀ (e : FDS_Entity) (tid : Nat),
      ((e.addComponent tid).addComponent tid).getComponent tid =
        some (addedCom (e.addComponent tid) tid) ∧
      (addedCom (e.addComponent tid) tid).cid = e.m_components.length + 1 ∧
      ((e.addComponent tid).addComponent tid).m_components.get? e.m_components.length =
        some (addedCom e tid) ∧
      (addedCom e tid).cid ∈ FDS_Entity.update ((e.addComponent tid).addComponent tid) ∧
      (addedCom e tid).cid ∈ FDS_Entity.draw ((e.addComponent tid).addComponent tid) := by
  intro e tid
  have hget? : ((e.addComponent tid).addComponent tid).m_components.get?
      e.m_components.length = some (addedCom e tid) := by
    rw [addComponent_components, addComponent_components]
    rw [get?_append_lt _ _ _ (by simp)]
    exact get?_append_length e.m_components (addedCom e tid) []
  have hmem : addedCom e tid ∈ ((e.addComponent tid).addComponent tid).m_components :=
    List.get?_mem hget?
  refine ⟨?_, ?_, hget?, ?_, ?_⟩
  · have harr : ((e.addComponent tid).addComponent tid).m_comArray tid =
        some (e.addComponent tid).m_components.length := by
      rw [addComponent_comArray, if_pos rfl]
    unfold FDS_Entity.getComponent
    rw [harr]
    show ((e.addComponent tid).addComponent tid).m_components.get?
      (e.addComponent tid).m_components.length = some (addedCom (e.addComponent tid) tid)
    rw [addComponent_components (e.addComponent tid) tid]
    exact get?_append_length _ (addedCom (e.addComponent tid) tid) []
  · show (e.addComponent tid).m_components.length = e.m_components.length + 1
    exact addComponent_length e tid
  · rw [FDS_Entity.update_eq_map]
    exact List.mem_map_of_mem _ hmem
  · rw [FDS_Entity.draw_eq_map]
    exact List.mem_map_of_mem _ hmem

theorem destroy_eid (e : FDS_Entity) : (e.destroy).eid = e.eid := rfl

theorem destroy_update (e : FDS_Entity) :
    FDS_Entity.update (e.destroy) = FDS_Entity.update e := rfl

theorem destroy_draw (e : FDS_Entity) :
    FDS_Entity.draw (e.destroy) = FDS_Entity.draw e := rfl

theorem update_destroyEntity_aux {α β : Type} (f : α → α) (g : α → List β)
    (hfg : ∀ a, g (f a) = g a) :
    ∀ l : List α, (l.map f).flatMap g = l.flatMap g := by
  intro l
  induction l with
  | nil => rfl
  | cons x xs ih => simp [hfg, ih]

/-- C4: entity-level `update()`/`draw()` visit every owned component in
exact insertion order, unconditionally (the active flag is not consulted:
destroying the entity changes neither trace); manager-level
`update()`/`draw()` visit every owned entity in creation order,
unconditionally — destroying any entity through its reference leaves the
dispatch traces unchanged. -/
theorem claim_C4_dispatch_order :
    (∀ e : FDS_Entity,
      FDS_Entity.update e = e.m_components.map (fun c => c.cid) ∧
      FDS_Entity.draw e = e.m_components.map (fun c => c.cid) ∧
      FDS_Entity.update (e.destroy) = FDS_Entity.update e ∧
      FDS_Entity.draw (e.destroy) = FDS_Entity.draw e) ∧
    (∀ (m : FDS_EntityManager) (eid : Nat),
      FDS_EntityManager.update m =
        m.m_entities.flatMap (fun e => (FDS_Entity.update e).map (fun c => (e.eid, c))) ∧
      FDS_EntityManager.draw m =
        m.m_entities.flatMap (fun e => (FDS_Entity.draw e).map (fun c => (e.eid, c))) ∧
      FDS_EntityManager.update (m.destroyEntity eid) = FDS_EntityManager.update m ∧
      FDS_EntityManager.draw (m.destroyEntity eid) = FDS_EntityManager.draw m) := by
  constructor
  · intro e
    exact ⟨FDS_Entity.update_eq_map e, FDS_Entity.draw_eq_map e, rfl, rfl⟩
  · intro m eid
    refine ⟨FDS_EntityManager.update_eq_bind m, FDS_EntityManager.draw_eq_bind m, ?_, ?_⟩
    · rw [FDS_EntityManager.update_eq_bind, FDS_EntityManager.update_eq_bind]
      show ((m.m_entities.map _).flatMap _) = _
      apply update_destroyEntity_aux
      intro a
      by_cases h : a.eid = eid <;>
        simp [h, destroy_eid, destroy_update]
    · rw [FDS_EntityManager.draw_eq_bind, FDS_EntityManager.draw_eq_bind]
      show ((m.m_entities.map _).flatMap _) = _
      apply update_destroyEntity_aux
      intro a
      by_cases h : a.eid = eid <;>
        simp [h, destroy_eid, destroy_draw]

/-- C5: `refresh()` is the stable erase-remove pass keeping exactly the
active entities in their relative creation order; it is a no-op on an
empty manager and on an all-active manager; and in the three-entity
scenario with the second destroyed, the survivors are the first and third,
in that order. -/
theorem claim_C5_refresh :
    (∀ m : FDS_EntityManager,
      (m.refresh).m_entities = m.m_entities.filter (fun e => e.isActive) ∧
      (m.refresh).m_entities.Sublist m.m_entities) ∧
    FDS_EntityManager.refresh FDS_EntityManager.empty = FDS_EntityManager.empty ∧
    (∀ m : FDS_EntityManager, (∀ e ∈ m.m_entities, e.isActive = true) → m.refresh = m) ∧
    ((((((FDS_EntityManager.empty.addEntity).1.addEntity).1.addEntity).1.destroyEntity 1).refresh).m_entities.map
      (fun e => e.eid) = [0, 2]) := by
  refine ⟨?_, rfl, ?_, ?_⟩
  · intro m
    exact ⟨rfl, List.filter_sublist m.m_entities⟩
  · intro m h
    have hf : m.m_entities.filter (fun e => e.isActive) = m.m_entities :=
      List.filter_eq_self.mpr (fun a ha => h a ha)
    show ({ m with m_entities := m.m_entities.filter (fun e => e.isActive) } : FDS_EntityManager) = m
    rw [hf]
  · rfl

/-- Witness for C5: a one-entity, all-active manager is untouched. -/
theorem claim_C5_refresh_witness :
    (∀ e ∈ ((FDS_EntityManager.empty.addEntity).1).m_entities, e.isActive = true) ∧
    ((FDS_EntityManager.empty.addEntity).1).refresh = (FDS_EntityManager.empty.addEntity).1 := by
  have h : ∀ e ∈ ((FDS_EntityManager.empty.addEntity).1).m_entities, e.isActive = true := by
    intro e he
    simp only [FDS_EntityManager.addEntity, FDS_EntityManager.empty, List.nil_append,
      List.mem_singleton] at he
    rw [he]
    rfl
  exact ⟨h, claim_C5_refresh.2.2.1 _ h⟩

/-- C6: `destroy()` clears the active flag (so `isActive()` is false
afterwards), is idempotent, and leaves the owned sequence, the lookup
table, the bitset and the identity untouched. -/
theorem claim_C6_destroy_effects :
    ∀ e : FDS_Entity,
      (e.destroy).isActive = false ∧
      (e.destroy).destroy = e.destroy ∧
      (e.destroy).m_components = e.m_components ∧
      (e.destroy).m_comArray = e.m_comArray ∧
      (e.destroy).m_comBitSet = e.m_comBitSet ∧
      (e.destroy).eid = e.eid :=
  fun _ => ⟨rfl, rfl, rfl, rfl, rfl, rfl⟩

/-- Bitset/lookup-table consistency of an entity: within capacity, a clear
bit means a null table entry, and a set bit means a table entry that is a
valid index into the owned sequence. -/
def FDS_Entity.consistent (e : FDS_Entity) : Prop :=
  ∀ tid, tid < FDS_MAX_COM →
    (e.m_comBitSet tid = false → e.m_comArray tid = none) ∧
    (e.m_comBitSet tid = true →
      ∃ i, e.m_comArray tid = some i ∧ i < e.m_components.length)

/-- C7: on a fresh entity every bit is clear and every table entry null;
`addComponent` (within capacity) preserves bitset/table consistency; under
consistency a true `hasComponent<T>()` guarantees the table entry is
non-null and `getComponent<T>()` returns a component (the null-dereference
branch is unreachable), while a false `hasComponent<T>()` means the entry
is null and `getComponent<T>()` dereferences it (modelled as `none`). -/
theorem claim_C7_lookup_consistency :
    (∀ eid tid : Nat,
      (newEntity eid).m_comBitSet tid = false ∧ (newEntity eid).m_comArray tid = none) ∧
    (∀ eid : Nat, (newEntity eid).consistent) ∧
    (∀ (e : FDS_Entity) (tid : Nat), e.consistent → tid < FDS_MAX_COM →
      (e.addComponent tid).consistent) ∧
    (∀ (e : FDS_Entity) (tid : Nat), e.consistent → tid < FDS_MAX_COM →
      e.hasComponent tid = true →
      ∃ i c, e.m_comArray tid = some i ∧ e.getComponent tid = some c) ∧
    (∀ (e : FDS_Entity) (tid : Nat), e.consistent → tid < FDS_MAX_COM →
      e.hasComponent tid = false →
      e.m_comArray tid = none ∧ e.getComponent tid = none) := by
  refine ⟨fun _ _ => ⟨rfl, rfl⟩, ?_, ?_, ?_, ?_⟩
  · intro eid tid _
    exact ⟨fun _ => rfl, fun h => by cases h⟩
  · intro e tid hcons htid t ht
    constructor
    · intro hf
      rw [addComponent_comBitSet] at hf
      rw [addComponent_comArray]
      by_cases h : t = tid
      · rw [if_pos h] at hf; cases hf
      · rw [if_neg h] at hf
        rw [if_neg h]
        exact (hcons t ht).1 hf
    · intro hb
      rw [addComponent_comArray, addComponent_length]
      rw [addComponent_comBitSet] at hb
      by_cases h : t = tid
      · rw [if_pos h]
        exact ⟨e.m_components.length, rfl, by omega⟩
      · rw [if_neg h] at hb
        rw [if_neg h]
        obtain ⟨i, hi, hlt⟩ := (hcons t ht).2 hb
        exact ⟨i, hi, by omega⟩
  · intro e tid hcons htid hhas
    obtain ⟨i, hi, hlt⟩ := (hcons tid htid).2 hhas
    refine ⟨i, e.m_components.get ⟨i, hlt⟩, hi, ?_⟩
    unfold FDS_Entity.getComponent
    rw [hi]
    exact List.get?_eq_get hlt
  · intro e tid hcons htid hhas
    have hn : e.m_comArray tid = none := (hcons tid htid).1 hhas
    refine ⟨hn, ?_⟩
    unfold FDS_Entity.getComponent
    rw [hn]

/-- Witness for C7: fresh entity 0 is consistent; after adding type 4 the
bit is set and `getComponent` succeeds; before, the entry is null. -/
theorem claim_C7_lookup_consistency_witness :
    FDS_Entity.consistent ((newEntity 0).addComponent 4) ∧
    (∃ i c, ((newEntity 0).addComponent 4).m_comArray 4 = some i ∧
      ((newEntity 0).addComponent 4).getComponent 4 = some c) ∧
    ((newEntity 0).m_comArray 4 = none ∧ (newEntity 0).getComponent 4 = none) := by
  have h0 : (newEntity 0).consistent := claim_C7_lookup_consistency.2.1 0
  have h1 : ((newEntity 0).addComponent 4).consistent :=
    claim_C7_lookup_consistency.2.2.1 (newEntity 0) 4 h0 (by decide)
  refine ⟨h1, ?_, ?_⟩
  · exact claim_C7_lookup_consistency.2.2.2.1 _ 4 h1 (by decide) rfl
  · exact claim_C7_lookup_consistency.2.2.2.2 _ 4 h0 (by decide) rfl

/-! ## Signal dispatcher (`fds::Signal`, src/unnamed/part_001 lines 305-447)

`slots_` is a `std::unordered_map<std::size_t, SlotData>`; the model keeps
the pairs in a list standing for the map contents in a fixed iteration
order (registration order is the instantiation chosen here — the C++
container leaves the order unspecified).  A callback is a `std::function`
that may call back into the signal; since the only signal-mutating
operations a slot of this library can perform are `connect` and
`disconnect`, a slot's behavior is modelled as one of: record its tag,
record and disconnect a given id, record and connect a fresh plain slot. -/

inductive SlotAct where
  | plain (tag : Nat)
  | disconnecting (tag : Nat) (victim : Nat)
  | connecting (tag : Nat) (newTag : Nat)
deriving Repr, DecidableEq

/-- The tag a slot writes to the emission log when invoked. -/
def SlotAct.tag : SlotAct → Nat
  | .plain t => t
  | .disconnecting t _ => t
  | .connecting t _ => t

structure Signal where
  slots : List (Nat × SlotAct)
  next_id : Nat
deriving Repr, DecidableEq

/-- A default-constructed signal: no slots, `next_id_ = 0`. -/
def Signal.empty : Signal := ⟨[], 0⟩

/-- `connect` (lines 377-382): `id = ++next_id_`, store the slot under
`id`, return the id (the `Connection` handle). -/
def Signal.connect (s : Signal) (a : SlotAct) : Signal × Nat :=
  (⟨s.slots ++ [(s.next_id + 1, a)], s.next_id + 1⟩, s.next_id + 1)

/-- `disconnect` (lines 428-431): `slots_.erase(id)`. -/
def Signal.disconnect (s : Signal) (id : Nat) : Signal :=
  ⟨s.slots.filter (fun p => p.1 != id), s.next_id⟩

/-- `slots_.find(id)` as used by `emit` and `Connection::connected`. -/
def Signal.findSlot (s : Signal) (id : Nat) : Option SlotAct :=
  findA s.slots id

/-- Invoking one slot: it appends its tag to the emission log and applies
its effect on the signal. -/
def runAct (st : Signal) (log : List Nat) : SlotAct → Signal × List Nat
  | .plain t => (st, log ++ [t])
  | .disconnecting t v => (st.disconnect v, log ++ [t])
  | .connecting t nt => ((st.connect (.plain nt)).1, log ++ [t])

/-- One iteration of the `emit` loop (lines 418-425): look the snapshotted
id up in the current map; invoke the slot only if still present. -/
def emitStep (acc : Signal × List Nat) (id : Nat) : Signal × List Nat :=
  match findA acc.1.slots id with
  | none => acc
  | some a => runAct acc.1 acc.2 a

/-- `emit` (lines 410-426): snapshot all current ids, then iterate the
snapshot, re-checking presence before each invocation. -/
def Signal.emit (s : Signal) : Signal × List Nat :=
  (s.slots.map (fun p => p.1)).foldl emitStep (s, [])

theorem findA_self {α : Type} :
    ∀ l : List (Nat × α), (l.map (fun p => p.1)).Nodup →
      ∀ p ∈ l, findA l p.1 = some p.2 := by
  intro l
  induction l with
  | nil => intro _ p hp; cases hp
  | cons q rest ih =>
    intro hnd p hp
    obtain ⟨k, v⟩ := q
    simp only [List.map_cons, List.nodup_cons] at hnd
    cases hp with
    | head => simp [findA]
    | tail _ hmem =>
      have hk : k ≠ p.1 := by
        intro hkp
        exact hnd.1 (hkp ▸ List.mem_map_of_mem (fun p => p.1) hmem)
      show (if k = p.1 then some v else findA rest p.1) = some p.2
      rw [if_neg hk]
      exact ih hnd.2 p hmem

theorem emit_plain_aux :
    ∀ (l : List (Nat × SlotAct)) (st : Signal) (log : List Nat),
      (∀ p ∈ l, findA st.slots p.1 = some (SlotAct.plain p.2.tag)) →
      (l.map (fun p => p.1)).foldl emitStep (st, log) =
        (st, log ++ l.map (fun p => p.2.tag)) := by
  intro l
  induction l with
  | nil => intro st log _; simp
  | cons p rest ih =>
    intro st log h
    have hp := h p (List.mem_cons_self p rest)
    simp only [List.map_cons, List.foldl_cons]
    have hstep : emitStep (st, log) p.1 = (st, log ++ [p.2.tag]) := by
      unfold emitStep
      rw [hp]
      rfl
    rw [hstep, ih st (log ++ [p.2.tag]) (fun q hq => h q (List.mem_cons_of_mem p hq))]
    simp

/-- The two-slot signal in which the first callback disconnects the
second during the emission: connect a `disconnecting` slot (gets id 1,
victim id 2), then a plain slot (gets id 2). -/
def sigCE : Signal :=
  ((Signal.empty.connect (SlotAct.disconnecting 10 2)).1.connect (SlotAct.plain 20)).1

/-- A signal whose single callback connects a new slot mid-emission. -/
def sigCC : Signal :=
  (Signal.empty.connect (SlotAct.connecting 10 99)).1

/-- C9 counterexample: in `sigCE`, slot 2 is registered at the moment
emission starts, yet the emission invokes only slot 1 (log `[10]`) —
the disconnection performed by slot 1 during the emission removes slot 2
from the in-progress emission, contradicting the claim that disconnections
made from within a callback do not affect which callbacks the in-progress
emission invokes. -/
theorem claim_C9_emit_counterexample :
    Signal.findSlot sigCE 2 = some (SlotAct.plain 20) ∧
    (Signal.emit sigCE).2 = [10] ∧
    20 ∉ (Signal.emit sigCE).2 := by decide

/-- C9 (amended): `emit` iterates the id snapshot taken at emission start
in order; when no callback mutates the signal every callback registered at
the start fires exactly once in snapshot order; a connection made from
within a callback is recorded but not invoked by the in-progress emission;
a disconnection made from within a callback prevents a not-yet-invoked
snapshotted callback from firing. -/
theorem claim_C9_emit_amended :
    (∀ s : Signal, (s.slots.map (fun p => p.1)).Nodup →
      (∀ p ∈ s.slots, ∃ t, p.2 = SlotAct.plain t) →
      (Signal.emit s).2 = s.slots.map (fun p => p.2.tag)) ∧
    (Signal.emit sigCE).2 = [10] ∧
    (Signal.emit sigCC).2 = [10] ∧
    Signal.findSlot (Signal.emit sigCC).1 2 = some (SlotAct.plain 99) := by
  refine ⟨?_, by decide, by decide, by decide⟩
  intro s hnd hplain
  unfold Signal.emit
  rw [emit_plain_aux s.slots s [] ?_]
  · simp
  · intro p hp
    obtain ⟨t, ht⟩ := hplain p hp
    rw [findA_self s.slots hnd p hp, ht]
    rfl

/-- Witness for C9 (amended) on a concrete two-plain-slot signal. -/
theorem claim_C9_emit_amended_witness :
    ((((Signal.empty.connect (SlotAct.plain 5)).1.connect (SlotAct.plain 6)).1.slots.map
      (fun p => p.1)).Nodup) ∧
    (Signal.emit (((Signal.empty.connect (SlotAct.plain 5)).1.connect (SlotAct.plain 6)).1)).2 =
      (((Signal.empty.connect (SlotAct.plain 5)).1.connect (SlotAct.plain 6)).1.slots.map
        (fun p => p.2.tag)) := by
  refine ⟨by decide, claim_C9_emit_amended.1 _ (by decide) ?_⟩
  intro p hp
  have hp' : p ∈ [(1, SlotAct.plain 5), (2, SlotAct.plain 6)] := hp
  simp only [List.mem_cons, List.not_mem_nil, or_false] at hp'
  rcases hp' with rfl | rfl
  · exact ⟨5, rfl⟩
  · exact ⟨6, rfl⟩

/-! ## Configuration store (`FDS_ConfigManager`, src/unnamed/part_001 lines 16-290)

The in-memory state is `m_configData : std::map<std::string,
std::map<std::string, std::string>>`.  `std::map` lookup/assignment
semantics are modelled with string-keyed association lists where
`operator[]`-style assignment overwrites an existing key and inserts an
absent one (the tree's internal ordering does not affect lookup results).
C++ exceptions (`throw std::runtime_error`) become `Except.error` carrying
the same message. -/

/-- `map[k] = v`: overwrite or insert. -/
def setAssoc {α : Type} : List (String × α) → String → α → List (String × α)
  | [], k, v => [(k, v)]
  | (k', v') :: rest, k, v =>
      if k' = k then (k, v) :: rest else (k', v') :: setAssoc rest k v

/-- `map.find(k)`. -/
def getAssoc {α : Type} : List (String × α) → String → Option α
  | [], _ => none
  | (k', v') :: rest, k => if k' = k then some v' else getAssoc rest k

/-- `m_configData`: filter → (key → value). -/
def ConfigData := List (String × List (String × String))

/-- `setConfig<bool>` (lines 228-232):
`m_configData[filter][key] = value ? "true" : "false";` — the outer
`operator[]` creates an empty section when absent. -/
def setConfigBool (d : ConfigData) (filter key : String) (value : Bool) : ConfigData :=
  let sect := (getAssoc d filter).getD []
  setAssoc d filter (setAssoc sect key (if value then "true" else "false"))

/-- `getConfig<bool>` (lines 262-290): throw when the filter or key is
absent; accept `"true"/"True"/"1"` as `true` and `"false"/"False"/"0"` as
`false`; throw on any other stored string. -/
def getConfigBool (d : ConfigData) (filter key : String) : Except String Bool :=
  match getAssoc d filter with
  | none => .error ("Filter not found: " ++ filter)
  | some sect =>
    match getAssoc sect key with
    | none => .error ("Key not found: " ++ key ++ " in filter: " ++ filter)
    | some value =>
      if value = "true" ∨ value = "True" ∨ value = "1" then .ok true
      else if value = "false" ∨ value = "False" ∨ value = "0" then .ok false
      else .error ("Invalid boolean value for key: " ++ key ++ " in filter: " ++ filter)

theorem getAssoc_setAssoc {α : Type} :
    ∀ (m : List (String × α)) (k : String) (v : α),
      getAssoc (setAssoc m k v) k = some v := by
  intro m
  induction m with
  | nil => intro k v; simp [setAssoc, getAssoc]
  | cons p rest ih =>
    intro k v
    obtain ⟨k', v'⟩ := p
    by_cases h : k' = k
    · simp [setAssoc, getAssoc, h]
    · simp only [setAssoc, getAssoc, if_neg h]
      exact ih k v

theorem getConfigBool_found (d : ConfigData) (f k v : String)
    (sect : List (String × String))
    (hf : getAssoc d f = some sect) (hk : getAssoc sect k = some v) :
    getConfigBool d f k =
      (if v = "true" ∨ v = "True" ∨ v = "1" then .ok true
       else if v = "false" ∨ v = "False" ∨ v = "0" then .ok false
       else .error ("Invalid boolean value for key: " ++ k ++ " in filter: " ++ f)) := by
  unfold getConfigBool
  rw [hf]
  dsimp only
  rw [hk]

/-- C10: storing a boolean with `setConfig<bool>` and reading it back with
`getConfig<bool>` on the same store returns the stored boolean without an
error (for every section, key and prior store contents); `setConfig<bool>`
encodes `true`/`false` as `"true"`/`"false"`; `getConfig<bool>` accepts
`"true"`, `"True"`, `"1"` as true and `"false"`, `"False"`, `"0"` as
false, and errs on any other stored string, on a missing section, and on
a missing key. -/
theorem claim_C10_bool_roundtrip :
    (∀ (d : ConfigData) (f k : String) (b : Bool),
      getConfigBool (setConfigBool d f k b) f k = .ok b) ∧
    (∀ f k b, getAssoc (getAssoc (setConfigBool [] f k b) f |>.getD []) k =
      some (if b then "true" else "false")) ∧
    (∀ f k, getConfigBool [(f, [(k, "True")])] f k = .ok true ∧
      getConfigBool [(f, [(k, "1")])] f k = .ok true ∧
      getConfigBool [(f, [(k, "False")])] f k = .ok false ∧
      getConfigBool [(f, [(k, "0")])] f k = .ok false) ∧
    (∀ f k, getConfigBool [(f, [(k, "yes")])] f k =
      .error ("Invalid boolean value for key: " ++ k ++ " in filter: " ++ f)) ∧
    (∀ f k, getConfigBool [] f k = .error ("Filter not found: " ++ f)) ∧
    (∀ f k, getConfigBool [(f, [])] f k =
      .error ("Key not found: " ++ k ++ " in filter: " ++ f)) := by
  have hone : ∀ (f k v : String),
      getConfigBool [(f, [(k, v)])] f k =
        (if v = "true" ∨ v = "True" ∨ v = "1" then .ok true
         else if v = "false" ∨ v = "False" ∨ v = "0" then .ok false
         else .error ("Invalid boolean value for key: " ++ k ++ " in filter: " ++ f)) := by
    intro f k v
    exact getConfigBool_found _ f k v [(k, v)] (by simp [getAssoc]) (by simp [getAssoc])
  refine ⟨?_, ?_, ?_, ?_, ?_, ?_⟩
  · intro d f k b
    have hf : getAssoc (setConfigBool d f k b) f =
        some (setAssoc ((getAssoc d f).getD []) k (if b then "true" else "false")) :=
      getAssoc_setAssoc d f _
    have hk : getAssoc (setAssoc ((getAssoc d f).getD []) k (if b then "true" else "false")) k =
        some (if b then "true" else "false") :=
      getAssoc_setAssoc _ k _
    rw [getConfigBool_found _ f k _ _ hf hk]
    cases b
    · rw [if_neg (by decide), if_pos (by decide)]
    · rw [if_pos (by decide)]
  · intro f k b
    rw [show setConfigBool [] f k b =
      setAssoc [] f (setAssoc [] k (if b then "true" else "false")) from rfl]
    rw [getAssoc_setAssoc]
    exact getAssoc_setAssoc _ k _
  · intro f k
    refine ⟨?_, ?_, ?_, ?_⟩ <;>
      rw [hone] <;> first
        | rw [if_pos (by decide)]
        | rw [if_neg (by decide), if_pos (by decide)]
  · intro f k
    rw [hone, if_neg (by decide), if_neg (by decide)]
  · intro f k
    rfl
  · intro f k
    unfold getConfigBool
    rw [show getAssoc [(f, ([] : List (String × String)))] f = some [] by simp [getAssoc]]
    rfl

end FDS
